import Mathlib

set_option maxRecDepth 40000

namespace Scrapli

/-- Byte strings are modelled as lists of natural numbers (each below 256 in practice). -/
abbrev Bytes := List Nat

/-- ASCII lowercasing of one byte, as Python bytes.lower performs it (A-Z only). -/
def lowerByte (c : Nat) : Nat := if 0x41 ≤ c ∧ c ≤ 0x5A then c + 32 else c

/-- Python bytes.lower: ASCII lowercasing of every byte. -/
def lowerBytes (s : Bytes) : Bytes := s.map lowerByte

/-- Bytes of an ASCII string literal (code points of its characters). -/
def bytesOfStr (s : String) : Bytes := s.data.map Char.toNat

/-- String from ASCII byte values, as Python bytes.decode on ASCII data. -/
def strOfBytes (l : Bytes) : String := ⟨l.map Char.ofNat⟩

/-- Does the second list start with the first one? -/
def startsWithB : Bytes → Bytes → Bool
  | [], _ => true
  | _ :: _, [] => false
  | x :: xs, y :: ys => x == y && startsWithB xs ys

/-- Python membership test needle in hay for bytes objects. -/
def containsB (hay needle : Bytes) : Bool :=
  match hay with
  | [] => needle.isEmpty
  | _ :: rest => startsWithB needle hay || containsB rest needle

/-- Abstract form of the regular expressions used by the source (Python re module,
bytes patterns): character classes, sequencing, alternation, optional and star,
all with Python preference order (first alternative first, quantifiers greedy). -/
inductive RE where
  | eps : RE
  | cls : (Nat → Bool) → RE
  | seq : RE → RE → RE
  | alt : RE → RE → RE
  | opt : RE → RE
  | star : RE → RE

/-- Greedy star over a candidate generator: try the body first (restricted to
attempts that consume at least one byte, mirroring how the engine refuses to repeat a
quantified body on empty progress), continue the star on each remainder, and fall
back to the empty repetition last. The fuel only bounds the unrolling; since each
kept body attempt strictly shortens the string, a fuel equal to the string length is
always sufficient and the cutoff is never reached. -/
def starCands (body : Bytes → List Bytes) : Nat → Bytes → List Bytes
  | 0, s => [s]
  | fuel + 1, s =>
    ((body s).filter (fun t => t.length < s.length)).flatMap (starCands body fuel) ++ [s]

/-- Candidate remainders of matching a regex at the head of a byte string, listed in
the order the Python backtracking engine explores them (depth-first, first alternative
and greedy quantifiers before shorter attempts). -/
def cands : RE → Bytes → List Bytes
  | .eps, s => [s]
  | .cls f, s =>
    match s with
    | [] => []
    | c :: rest => if f c then [rest] else []
  | .seq a b, s => (cands a s).flatMap (fun t => cands b t)
  | .alt a b, s => cands a s ++ cands b s
  | .opt a, s => cands a s ++ [s]
  | .star a, s => starCands (fun t => cands a t) s.length s

/-- Remainder of the byte string after the match the Python engine selects for the
pattern anchored at the head of s, or none when the pattern does not match there. -/
def matchEnd (r : RE) (s : Bytes) : Option Bytes :=
  (cands r s).head?

/-- Scan step of re.sub with fuel; the fuel is the length of the string, which
suffices because every step proceeds on a strictly shorter string. -/
def reSubFuel (r : RE) : Nat → Bytes → Bytes
  | _, [] => []
  | 0, s => s
  | fuel + 1, c :: rest =>
    match matchEnd r (c :: rest) with
    | some t => if t.length < rest.length + 1 then reSubFuel r fuel t else c :: reSubFuel r fuel rest
    | none => c :: reSubFuel r fuel rest

/-- Python re.sub(pattern, empty, s): scan left to right, delete every
non-overlapping match, resuming immediately after each match. -/
def reSub (r : RE) (s : Bytes) : Bytes := reSubFuel r s.length s

/-- Decidable range membership helper for byte classes. -/
def inRange (lo hi c : Nat) : Bool := decide (lo ≤ c ∧ c ≤ hi)

/-- Lead byte class of ANSI_ESCAPE_PATTERN: ESC (0x1B) or CSI (0x9B). -/
def isAnsiLead (c : Nat) : Bool := c == 0x1B || c == 0x9B

/-- Modifier class of ANSI_ESCAPE_PATTERN: the bytes [ ] ( ) # ; ? . -/
def isAnsiMod (c : Nat) : Bool :=
  c == 0x5B || c == 0x5D || c == 0x28 || c == 0x29 || c == 0x23 || c == 0x3B || c == 0x3F

/-- ASCII alphanumeric byte (the classes a-zA-Z0-9 and a-zA-Z plus digit coincide). -/
def isAlnumB (c : Nat) : Bool := inRange 0x41 0x5A c || inRange 0x61 0x7A c || inRange 0x30 0x39 c

/-- ASCII digit byte. -/
def isDigitB (c : Nat) : Bool := inRange 0x30 0x39 c

/-- Final byte class of the CSI alternative: digits, A-P, R, Z, c, f-n, t, q, r, y, =, >, <, ~. -/
def isCsiFinal (c : Nat) : Bool :=
  isDigitB c || inRange 0x41 0x50 c || c == 0x52 || c == 0x5A || c == 0x63 ||
  inRange 0x66 0x6E c || c == 0x74 || c == 0x71 || c == 0x72 || c == 0x79 ||
  c == 0x3D || c == 0x3E || c == 0x3C || c == 0x7E

/-- n copies of a regex in sequence. -/
def reSeqN (a : RE) : Nat → RE
  | 0 => .eps
  | n + 1 => .seq a (reSeqN a n)

/-- Greedy chain of up to n optional copies of a regex (Python preference: longer first). -/
def reOptChain (a : RE) : Nat → RE
  | 0 => .eps
  | n + 1 => .opt (.seq a (reOptChain a n))

/-- Greedy bounded repetition a with between lo and hi copies, desugared into lo
mandatory copies followed by hi - lo greedy optional copies; the candidate order
matches the Python backtracking order for bounded quantifiers. -/
def reRep (a : RE) (lo hi : Nat) : RE := .seq (reSeqN a lo) (reOptChain a (hi - lo))

/-- First alternative of ANSI_ESCAPE_PATTERN: an optional alphanumeric body with
semicolon-separated groups, terminated by BEL (0x07). -/
def ansiAlt1 : RE :=
  .seq (.opt (.seq (.star (.cls isAlnumB))
                   (.star (.seq (.cls (fun c => c == 0x3B)) (.star (.cls isAlnumB))))))
       (.cls (fun c => c == 0x07))

/-- Second alternative of ANSI_ESCAPE_PATTERN: optional 1-4 digits with
semicolon-separated groups of 0-4 digits, then a CSI final byte. -/
def ansiAlt2 : RE :=
  .seq (.opt (.seq (reRep (.cls isDigitB) 1 4)
                   (.star (.seq (.cls (fun c => c == 0x3B)) (reRep (.cls isDigitB) 0 4)))))
       (.cls isCsiFinal)

/-- ANSI_ESCAPE_PATTERN of scrapli.channel.base_channel: a lead byte, any number of
modifier bytes, then one of the two alternatives. -/
def ansiEscapeRE : RE := .seq (.cls isAnsiLead) (.seq (.star (.cls isAnsiMod)) (.alt ansiAlt1 ansiAlt2))

/-- BaseChannel._strip_ansi: remove every match of ANSI_ESCAPE_PATTERN from the buffer
(also models nssh.helper.strip_ansi, which nssh.channel imports for the same purpose). -/
def stripAnsi (buf : Bytes) : Bytes := reSub ansiEscapeRE buf

/-- CPython io.BytesIO.seek with whence SEEK_END: the new position is size + offset,
clamped below at zero (BytesIO only rejects negative positions for absolute seeks);
seeking back past the start of a short buffer therefore lands on position 0. -/
def bytesSeekEnd (size : Nat) (offset : Int) : Nat := (Int.ofNat size + offset).toNat

/-- Python bytes.partition(sep) for a single-byte separator: (before, found, after)
where before is everything up to the first occurrence of sep; when sep does not
occur, before is the whole string and found is false. -/
def bpartition (sep : Nat) : Bytes → Bytes × Bool × Bytes
  | [] => ([], false, [])
  | c :: rest =>
    if c = sep then ([], true, rest)
    else ⟨c :: (bpartition sep rest).1, (bpartition sep rest).2.1, (bpartition sep rest).2.2⟩

/-- BaseChannel._process_read_buf: seek back comms_prompt_search_depth bytes from the
end of the read buffer (clamped at the start), read the tail, partition it on the
first newline keeping the remainder, and fall back to the part before the newline
when nothing follows it. -/
def processReadBuf (depth : Nat) (buf : Bytes) : Bytes :=
  let searchBuf := buf.drop (bytesSeekEnd buf.length (-(Int.ofNat depth)))
  if (bpartition 10 searchBuf).2.2 = [] then (bpartition 10 searchBuf).1
  else (bpartition 10 searchBuf).2.2

/-- Leftmost case-insensitive occurrence of a literal in a byte string, returning the
remainder after it, as re.search with an IGNORECASE literal prefix finds it. -/
def findLitCI (lit : Bytes) : Bytes → Option Bytes
  | [] => if startsWithB (lowerBytes lit) [] then some [] else none
  | c :: rest =>
    if startsWithB (lowerBytes lit) (lowerBytes (c :: rest)) then
      some ((c :: rest).drop lit.length)
    else findLitCI lit rest

/-- Greedy run of class bytes at the head of a byte string (the capture group of a
trailing class-star in a Python regex). -/
def greedyRun (f : Nat → Bool) : Bytes → Bytes
  | [] => []
  | c :: rest => if f c then c :: greedyRun f rest else []

/-- Character class a-z0-9 hyphen comma of the offer detail patterns; compiled with
re.I, so uppercase letters match as well. -/
def offerClass (c : Nat) : Bool :=
  inRange 0x61 0x7A c || inRange 0x41 0x5A c || isDigitB c || c == 0x2D || c == 0x2C

/-- Character class a-z0-9 plus equals comma of the bad-configuration detail pattern;
compiled with re.I, so uppercase letters match as well. -/
def badOptClass (c : Nat) : Bool :=
  inRange 0x61 0x7A c || inRange 0x41 0x5A c || isDigitB c || c == 0x2B || c == 0x3D || c == 0x2C

/-- re.search of a detail pattern that is a case-insensitive literal followed by a
captured greedy class-star: the group captured at the leftmost occurrence. -/
def searchDetail (lit : Bytes) (f : Nat → Bool) (s : Bytes) : Option Bytes :=
  (findLitCI lit s).map (greedyRun f)

/-- Suffix appended to a classifier message when the companion detail pattern
matches: comma, space, the fixed label, and the decoded capture group. -/
def detailSuffix (label : String) (lit : Bytes) (f : Nat → Bool) (output : Bytes) : String :=
  match searchDetail lit f output with
  | some g => ", " ++ label ++ strOfBytes g
  | none => ""

/-- Python str applied to a bytes object yields its repr: the letter b, a quote, the
escaped contents, and a closing quote. Single quotes are used unless the bytes
contain a single quote and no double quote. -/
def pyBytesReprQuote (b : Bytes) : Nat :=
  if b.contains 0x27 ∧ ¬ b.contains 0x22 then 0x22 else 0x27

/-- Escape one byte inside a bytes repr with the given quote byte. -/
def pyBytesReprByte (q c : Nat) : List Char :=
  if c = 0x5C then ['\\', '\\']
  else if c = q then ['\\', Char.ofNat q]
  else if c = 0x09 then ['\\', 't']
  else if c = 0x0A then ['\\', 'n']
  else if c = 0x0D then ['\\', 'r']
  else if 0x20 ≤ c ∧ c ≤ 0x7E then [Char.ofNat c]
  else
    let hexDigit : Nat → Char := fun n => if n < 10 then Char.ofNat (0x30 + n) else Char.ofNat (0x57 + n - 10)
    ['\\', 'x', hexDigit (c / 16), hexDigit (c % 16)]

/-- Python str(output) for a bytes object, as evaluated by CPython (its repr). -/
def pyBytesRepr (b : Bytes) : String :=
  let q := pyBytesReprQuote b
  ⟨Char.ofNat 98 :: Char.ofNat q :: (b.flatMap (pyBytesReprByte q) ++ [Char.ofNat q])⟩

/-- BaseChannel._ssh_message_handler: ordered elif chain of substring checks over the
lowercased output (the private-key warning is checked against the raw output), the
first match selecting the message; some rules append an extracted detail; the
permission-denied rule sets the message to str(output). Returns the message of the
ScrapliAuthenticationFailed failure raised, or none when no rule matches. -/
def sshMessageHandler (output : Bytes) : Option String :=
  let low := lowerBytes output
  let offerLit := bytesOfStr "their offer: "
  if containsB low (bytesOfStr "host key verification failed") then
    some "Host key verification failed"
  else if containsB low (bytesOfStr "operation timed out") ∨
      containsB low (bytesOfStr "connection timed out") then
    some "Timed out connecting to host"
  else if containsB low (bytesOfStr "no route to host") then
    some "No route to host"
  else if containsB low (bytesOfStr "no matching host key") then
    some ("No matching host key type found for host" ++
      detailSuffix "their offer: " offerLit offerClass output)
  else if containsB low (bytesOfStr "no matching key exchange") then
    some ("No matching key exchange found for host" ++
      detailSuffix "their offer: " offerLit offerClass output)
  else if containsB low (bytesOfStr "no matching cipher") then
    some ("No matching cipher found for host" ++
      detailSuffix "their offer: " offerLit offerClass output)
  else if containsB low (bytesOfStr "bad configuration") then
    some ("Bad SSH configuration option(s) for host" ++
      detailSuffix "bad option(s): " (bytesOfStr "bad configuration option: ") badOptClass output)
  else if containsB output (bytesOfStr "WARNING: UNPROTECTED PRIVATE KEY FILE!") then
    some "Permissions for private key are too open, authentication failed!"
  else if containsB low (bytesOfStr "could not resolve hostname") then
    some "Could not resolve address for host"
  else if containsB low (bytesOfStr "permission denied") then
    some (pyBytesRepr output)
  else none

/-- Byte escaped by Python re.escape (3.7 and later): the special characters
of the re language, whitespace among them. -/
def reEscapeSpecial (c : Nat) : Bool :=
  c == 0x28 || c == 0x29 || c == 0x5B || c == 0x5D || c == 0x7B || c == 0x7D ||
  c == 0x3F || c == 0x2A || c == 0x2B || c == 0x2D || c == 0x7C || c == 0x5E ||
  c == 0x24 || c == 0x5C || c == 0x2E || c == 0x26 || c == 0x7E || c == 0x23 ||
  c == 0x20 || c == 0x09 || c == 0x0A || c == 0x0D || c == 0x0B || c == 0x0C

/-- Python re.escape on bytes: backslash-escape every special byte. -/
def reEscape (p : Bytes) : Bytes :=
  p.flatMap (fun c => if reEscapeSpecial c then [0x5C, c] else [c])

/-- Remove the escaping re.escape introduced (a backslash always escapes the next
byte in an escaped literal). -/
def reUnescape : Bytes → Bytes
  | [] => []
  | c :: rest =>
    if c = 0x5C then
      match rest with
      | [] => [c]
      | d :: t => d :: reUnescape t
    else c :: reUnescape rest

/-- Compiled prompt pattern as produced by BaseChannel._get_prompt_pattern: the
source text handed to re.compile, whether it went through re.escape (and therefore
denotes a literal), and which of the IGNORECASE and MULTILINE flags were passed. -/
structure PromptPattern where
  src : Bytes
  escapedLit : Bool
  ignoreCase : Bool
  multiline : Bool
deriving DecidableEq, Repr

/-- BaseChannel._get_prompt_pattern: with no override (or an empty one, which Python
treats as falsy) compile the class pattern with re.M and re.I; with an override that
begins with a caret and ends with a dollar compile it with the same flags; otherwise
compile re.escape of the override with no flags at all. -/
def getPromptPattern (classPattern : Bytes) (pattern : Option Bytes) : PromptPattern :=
  match pattern with
  | none => ⟨classPattern, false, true, true⟩
  | some p =>
    if p = [] then ⟨classPattern, false, true, true⟩
    else if p.head? = some 0x5E ∧ p.getLast? = some 0x24 then ⟨p, false, true, true⟩
    else ⟨reEscape p, true, false, false⟩

/-- re.search semantics for a compiled pattern whose source is an escaped literal:
an unanchored substring search for the unescaped literal, honoring the IGNORECASE
flag and nothing else (an escaped literal contains no other construct). -/
def litSearch (pp : PromptPattern) (hay : Bytes) : Bool :=
  let lit := reUnescape pp.src
  if pp.ignoreCase then containsB (lowerBytes hay) (lowerBytes lit) else containsB hay lit

/-- BaseChannelArgs of scrapli.channel.base_channel: the configuration dataclass
(transport and logging specifics that the claims do not touch are omitted). -/
structure BaseChannelArgs where
  auth_telnet_login_pattern : String := "^(.*username:)|(.*login:)\\s?$"
  auth_password_pattern : String := "(.*@.*)?password:\\s?$"
  auth_passphrase_pattern : String := "enter passphrase for key"
  comms_prompt_pattern : String := "^[a-z0-9.\\-@()/:]\x7b1,32\x7d[#>$]$"
  comms_return_char : String := "\n"
  comms_prompt_search_depth : Nat := 1000
  channel_log_mode : String := "write"
  channel_lock : Bool := false
deriving DecidableEq, Repr

/-- The single-quote character as a string, used to build Python error text. -/
def squote : String := ⟨[Char.ofNat 39]⟩

/-- ASCII lowercasing of a string, as Python str.lower acts on the ASCII mode
strings compared here. -/
def lowerStr (s : String) : String := ⟨s.data.map fun c => Char.ofNat (lowerByte c.toNat)⟩

/-- First half of BaseChannelArgs.__post_init__: the three sequential checks that
replace an empty auth pattern field by its documented default. -/
def fillDefaults (a : BaseChannelArgs) : BaseChannelArgs :=
  let a1 := if a.auth_telnet_login_pattern = "" then
    { a with auth_telnet_login_pattern := "^(.*username:)|(.*login:)\\s?$" } else a
  let a2 := if a1.auth_password_pattern = "" then
    { a1 with auth_password_pattern := "(.*@.*)?password:\\s?$" } else a1
  if a2.auth_passphrase_pattern = "" then
    { a2 with auth_passphrase_pattern := "enter passphrase for key" } else a2

/-- BaseChannelArgs.__post_init__: replace the three empty auth patterns by their
defaults, reject a channel_log_mode other than write or append with a
ScrapliValueError, and normalize the accepted mode to its one-letter form. -/
def postInit (a : BaseChannelArgs) : Except String BaseChannelArgs :=
  let a := fillDefaults a
  if lowerStr a.channel_log_mode ≠ "write" ∧ lowerStr a.channel_log_mode ≠ "append" then
    Except.error ("provided channel_log_mode " ++ squote ++ a.channel_log_mode ++ squote ++
      " is not valid, mode must be one of: " ++ squote ++ "write" ++ squote ++ ", " ++
      squote ++ "append" ++ squote)
  else if lowerStr a.channel_log_mode = "write" then
    Except.ok { a with channel_log_mode := "w" }
  else
    Except.ok { a with channel_log_mode := "a" }

/-- One observable action of the nssh Channel against its Transport collaborator. -/
inductive Event where
  | eLockAcquire : Event
  | eLockRelease : Event
  | eFlush : Event
  | eWrite : Bytes → Event
  | eRead : Bytes → Event
  | eSetBlocking : Bool → Event
deriving DecidableEq, Repr

/-- State of the Transport collaborator as the nssh Channel drives it: the chunks the
session will deliver to successive reads, the session lock, counters of lock
operations, and the trace of every transport action in order. -/
structure TransportState where
  feed : List Bytes
  lockHeld : Bool
  acquireCount : Nat
  releaseCount : Nat
  events : List Event
deriving DecidableEq, Repr

/-- Transport.read: deliver the next pending chunk (an empty chunk once the feed is
exhausted, as a non-blocking read with no data returns empty). -/
def tRead (st : TransportState) : Bytes × TransportState :=
  match st.feed with
  | [] => ([], { st with events := st.events ++ [Event.eRead []] })
  | c :: rest => (c, { st with feed := rest, events := st.events ++ [Event.eRead c] })

/-- Transport.write. -/
def tWrite (data : Bytes) (st : TransportState) : TransportState :=
  { st with events := st.events ++ [Event.eWrite data] }

/-- Transport.flush. -/
def tFlush (st : TransportState) : TransportState :=
  { st with events := st.events ++ [Event.eFlush] }

/-- Transport.set_blocking. -/
def tSetBlocking (b : Bool) (st : TransportState) : TransportState :=
  { st with events := st.events ++ [Event.eSetBlocking b] }

/-- Transport.session_lock.acquire on a free lock. -/
def lockAcquire (st : TransportState) : TransportState :=
  { st with lockHeld := true, acquireCount := st.acquireCount + 1,
            events := st.events ++ [Event.eLockAcquire] }

/-- Transport.session_lock.release. -/
def lockRelease (st : TransportState) : TransportState :=
  { st with lockHeld := false, releaseCount := st.releaseCount + 1,
            events := st.events ++ [Event.eLockRelease] }

/-- Value of one chunk as Channel._read_chunk returns it: the raw transport bytes,
with their ANSI-stripped copy concatenated after them when comms_ansi is set (the
source appends strip_ansi(new_output) to new_output rather than replacing it). -/
def chunkVal (ansi : Bool) (raw : Bytes) : Bytes :=
  if ansi then raw ++ stripAnsi raw else raw

/-- Channel._read_chunk: read one chunk from the transport and apply chunkVal. -/
def readChunk (ansi : Bool) (st : TransportState) : Bytes × TransportState :=
  (chunkVal ansi (tRead st).1, (tRead st).2)

/-- Channel._read_until_input: append chunks until the written input bytes occur in
the accumulated output (the device echo). Fuel models the operation timeout: when it
runs out before the echo appears, the result is none and the decorator handles the
timeout. -/
def readUntilInput (ansi : Bool) (input : Bytes) :
    Nat → Bytes → TransportState → Option Bytes × TransportState
  | 0, acc, st => if containsB acc input then (some acc, st) else (none, st)
  | fuel + 1, acc, st =>
    if containsB acc input then (some acc, st)
    else readUntilInput ansi input fuel (acc ++ (readChunk ansi st).1) (readChunk ansi st).2

/-- Loop body of Channel._read_until_prompt: read a chunk, append, test the prompt
predicate against the accumulated output, restore blocking mode and return on a
match. The predicate abstracts the compiled pattern of nssh.helper.get_prompt_pattern
together with the unicode_escape decode and carriage-return normalization applied
before re.search; the lock and ordering claims hold for every such predicate. -/
def readUntilPromptLoop (ansi : Bool) (matchP : Bytes → Bool) :
    Nat → Bytes → TransportState → Option Bytes × TransportState
  | 0, _, st => (none, st)
  | fuel + 1, acc, st =>
    if matchP (acc ++ (readChunk ansi st).1) then
      (some (acc ++ (readChunk ansi st).1), tSetBlocking true (readChunk ansi st).2)
    else readUntilPromptLoop ansi matchP fuel (acc ++ (readChunk ansi st).1) (readChunk ansi st).2

/-- Channel._read_until_prompt: switch the transport to non-blocking mode, then loop
reading until the prompt predicate matches. -/
def readUntilPrompt (ansi : Bool) (matchP : Bytes → Bool) (fuel : Nat) (acc : Bytes)
    (st : TransportState) : Option Bytes × TransportState :=
  readUntilPromptLoop ansi matchP fuel acc (tSetBlocking false st)

/-- Channel._send_return: flush, then write the configured return character. -/
def sendReturn (returnChar : Bytes) (st : TransportState) : TransportState :=
  tWrite returnChar (tFlush st)

/-- Modelled from the spec: nssh.helper.normalize_lines is imported by
nssh.channel.channel but its source is not in the repository snapshot; the spec
describes line normalization as right-trimming trailing whitespace from each line.
Lines here are split on newline bytes as the subsequent splitlines join does. -/
def normalizeLines (b : Bytes) : Bytes :=
  let rstripWS : Bytes → Bytes := fun l => (l.reverse.dropWhile (fun c => c = 0x20 ∨ c = 0x09)).reverse
  joinNL ((splitNL b).map rstripWS)
where
  /-- Split on newline bytes. -/
  splitNL : Bytes → List Bytes
    | [] => [[]]
    | c :: rest =>
      let r := splitNL rest
      if c = 10 then [] :: r
      else match r with
        | [] => [[c]]
        | h :: t => (c :: h) :: t
  /-- Join with newline bytes. -/
  joinNL : List Bytes → Bytes
    | [] => []
    | [l] => l
    | l :: rest => l ++ 10 :: joinNL rest

/-- Channel._restructure_output: normalize lines, purge empty rows, and when
strip_prompt is requested substitute the compiled prompt pattern away. The
substitution re.sub(prompt_pattern, empty, output) is abstracted as a caller-supplied
function, as the prompt pattern is an arbitrary configured regex. -/
def restructureOutput (promptSub : Bytes → Bytes) (stripPrompt : Bool) (output : Bytes) : Bytes :=
  let o := normalizeLines output
  let o := normalizeLines.joinNL ((normalizeLines.splitNL o).filter (fun r => r ≠ []))
  if stripPrompt then promptSub o else o

/-- Errors a Channel operation can surface: the modelled OperationTimeout of the
nssh.decorators.operation_timeout wrapper, and Python-level call errors. -/
inductive ChanErr where
  | timeout : ChanErr
  | typeErr : ChanErr
  | valueErr : ChanErr
  | attributeErr : ChanErr
deriving DecidableEq, Repr

/-- Modelled from the spec: nssh.decorators.operation_timeout is imported by
nssh.channel.channel but its source is not in the repository snapshot; the spec
requires that when an operation exceeds timeout_ops, the lock is released as part of
timeout handling before the OperationTimeout failure propagates. -/
def opTimeout (st : TransportState) : Except ChanErr (Bytes × Bytes) × TransportState :=
  (Except.error ChanErr.timeout, lockRelease st)

/-- Channel._send_input under the operation_timeout wrapper: acquire the session
lock, flush, write the input, absorb the echo, send return, read until the base
prompt matches, release the lock, and produce the raw and restructured output;
exhausting the fuel inside either read loop is the timeout path. -/
def sendInput (ansi : Bool) (matchP : Bytes → Bool) (promptSub : Bytes → Bytes)
    (returnChar : Bytes) (fuel : Nat) (input : Bytes) (stripPrompt : Bool)
    (st : TransportState) : Except ChanErr (Bytes × Bytes) × TransportState :=
  let st := lockAcquire st
  let st := tFlush st
  let st := tWrite input st
  match readUntilInput ansi input fuel [] st with
  | (none, st) => opTimeout st
  | (some _, st) =>
    let st := sendReturn returnChar st
    match readUntilPrompt ansi matchP fuel [] st with
    | (none, st) => opTimeout st
    | (some output, st) =>
      let st := lockRelease st
      (Except.ok (output, restructureOutput promptSub stripPrompt output), st)

/-- Channel._send_input_interact under the operation_timeout wrapper: acquire the
lock, flush, write the stage input, absorb the echo, send return, read until the
expectation matches, record a return character in the output when the response is
empty or hidden, write the response, send return, read until the finale matches,
release the lock, and produce raw and restructured output (prompt never stripped). -/
def sendInputInteract (ansi : Bool) (expectP finaleP : Bytes → Bool)
    (promptSub : Bytes → Bytes) (returnChar : Bytes) (fuel : Nat)
    (input response : Bytes) (hiddenResponse : Bool) (st : TransportState) :
    Except ChanErr (Bytes × Bytes) × TransportState :=
  let st := lockAcquire st
  let st := tFlush st
  let st := tWrite input st
  match readUntilInput ansi input fuel [] st with
  | (none, st) => opTimeout st
  | (some _, st) =>
    let st := sendReturn returnChar st
    match readUntilPrompt ansi expectP fuel [] st with
    | (none, st) => opTimeout st
    | (some out1, st) =>
      let out1 := if response = [] then out1 ++ returnChar
        else if hiddenResponse then out1 ++ returnChar else out1
      let st := tWrite response st
      let st := sendReturn returnChar st
      match readUntilPrompt ansi finaleP fuel [] st with
      | (none, st) => opTimeout st
      | (some out2, st) =>
        let st := lockRelease st
        let output := out1 ++ out2
        (Except.ok (output, restructureOutput promptSub false output), st)

/-- Python value passed as the inputs argument of Channel.send_inputs_interact,
whose static type is a union of list and tuple but whose runtime shape is
unconstrained. -/
inductive PyVal where
  | pstr : String → PyVal
  | ptuple : List PyVal → PyVal
  | plist : List PyVal → PyVal

/-- Python destructuring assignment of one value into four names, as the loop header
of send_inputs_interact performs on each element of (inputs,): a list or tuple
unpacks exactly when it has four elements, anything else raises. -/
def unpack4 : PyVal → Except ChanErr (PyVal × PyVal × PyVal × PyVal)
  | PyVal.ptuple [a, b, c, d] => Except.ok (a, b, c, d)
  | PyVal.plist [a, b, c, d] => Except.ok (a, b, c, d)
  | _ => Except.error ChanErr.valueErr

/-- Python attribute access value.encode(): succeeds only on a string. -/
def asPyStr : PyVal → Except ChanErr String
  | PyVal.pstr s => Except.ok s
  | _ => Except.error ChanErr.attributeErr

/-- Channel.send_inputs_interact: reject a non-list, non-tuple argument with a
TypeError, wrap the single inputs value as the only stage, unpack it into input,
expectation, response and finale, and run _send_input_interact on that one stage.
The expectation and finale strings are turned into match predicates by the
caller-supplied mkMatch, abstracting nssh.helper.get_prompt_pattern and the search
applied to the accumulated output. -/
def sendInputsInteract (ansi : Bool) (mkMatch : String → Bytes → Bool)
    (promptSub : Bytes → Bytes) (returnChar : Bytes) (fuel : Nat) (inputs : PyVal)
    (hiddenResponse : Bool) (st : TransportState) :
    Except ChanErr (Bytes × Bytes) × TransportState :=
  match inputs with
  | PyVal.pstr _ => (Except.error ChanErr.typeErr, st)
  | _ =>
    match unpack4 inputs with
    | Except.error e => (Except.error e, st)
    | Except.ok (i, e, r, f) =>
      match asPyStr i, asPyStr e, asPyStr r, asPyStr f with
      | Except.ok si, Except.ok se, Except.ok sr, Except.ok sf =>
        sendInputInteract ansi (mkMatch se) (mkMatch sf) promptSub returnChar fuel
          (bytesOfStr si) (bytesOfStr sr) hiddenResponse st
      | Except.error err, _, _, _ => (Except.error err, st)
      | _, Except.error err, _, _ => (Except.error err, st)
      | _, _, Except.error err, _ => (Except.error err, st)
      | _, _, _, Except.error err => (Except.error err, st)

/-- Does the ANSI escape pattern match at no position of the byte string? A chunk
with this property contains no escape sequence the stripper would remove. -/
def noAnsiMatchB : Bytes → Bool
  | [] => (matchEnd ansiEscapeRE []).isNone
  | c :: rest => (matchEnd ansiEscapeRE (c :: rest)).isNone && noAnsiMatchB rest

/-- Default comms_prompt_pattern of the nssh Channel and of BaseChannelArgs, as bytes. -/
def defaultPromptB : Bytes := bytesOfStr "^[a-z0-9.\\-@()/:]\x7b1,32\x7d[#>$]$"

/-- Counterexample buffer for the mid-line window claim: abc, newline, def. -/
def c3buf : Bytes := [97, 98, 99, 10, 100, 101, 102]

/-- Authentication output containing three classifier trigger substrings at once. -/
def c5out : Bytes :=
  bytesOfStr "host key verification failed: no route to host: permission denied"

/-- The concrete pre-authentication output of the permission-denied scenario. -/
def permDeniedOut : Bytes := bytesOfStr "Permission denied, please try again."

/-- The override pattern of the confirm scenario, as bytes. -/
def confirmPat : Bytes := bytesOfStr "confirm?"

/-- A caller-supplied two-stage interaction list, each stage a four-string tuple. -/
def twoStages : PyVal :=
  PyVal.plist
    [PyVal.ptuple [PyVal.pstr "enable", PyVal.pstr "assword:",
                   PyVal.pstr "secret", PyVal.pstr "#"],
     PyVal.ptuple [PyVal.pstr "conf t", PyVal.pstr ")#",
                   PyVal.pstr "", PyVal.pstr "#"]]

/-- A transport state with a free lock and three pending chunks. -/
def demoState : TransportState :=
  { feed := [[105], [35], [62]], lockHeld := false, acquireCount := 0, releaseCount := 0,
    events := [] }

theorem startsWithB_iff (n : Bytes) : ∀ h : Bytes, startsWithB n h = true ↔ ∃ t, h = n ++ t := by
  induction n with
  | nil => intro h; simp [startsWithB]
  | cons x xs ih =>
    intro h
    cases h with
    | nil => simp [startsWithB]
    | cons y ys =>
      simp only [startsWithB, Bool.and_eq_true, beq_iff_eq, ih ys, List.cons_append]
      constructor
      · rintro ⟨rfl, t, rfl⟩; exact ⟨t, rfl⟩
      · rintro ⟨t, h⟩
        injection h with h1 h2
        exact ⟨h1.symm, t, h2⟩

theorem containsB_iff (hay needle : Bytes) :
    containsB hay needle = true ↔ ∃ pre post, hay = pre ++ needle ++ post := by
  induction hay with
  | nil =>
    simp only [containsB, List.isEmpty_iff]
    constructor
    · rintro rfl; exact ⟨[], [], rfl⟩
    · rintro ⟨pre, post, h⟩
      rcases List.append_eq_nil.mp (List.append_eq_nil.mp h.symm).1 with ⟨_, h2⟩
      exact h2
  | cons c rest ih =>
    simp only [containsB, Bool.or_eq_true, startsWithB_iff, ih]
    constructor
    · rintro (⟨t, h⟩ | ⟨pre, post, h⟩)
      · exact ⟨[], t, by simp [h]⟩
      · exact ⟨c :: pre, post, by simp [h]⟩
    · rintro ⟨pre, post, h⟩
      cases pre with
      | nil => exact Or.inl ⟨post, by simpa using h⟩
      | cons p ps =>
        right
        simp only [List.cons_append] at h
        injection h with _ h2
        exact ⟨ps, post, h2⟩

theorem bytesSeekEnd_neg (n d : Nat) : bytesSeekEnd n (-(Int.ofNat d)) = n - d := by
  simp only [bytesSeekEnd, Int.ofNat_eq_coe]
  omega

theorem bpartition_found (sep : Nat) : ∀ s : Bytes, (bpartition sep s).2.1 = true →
    s = (bpartition sep s).1 ++ sep :: (bpartition sep s).2.2 := by
  intro s
  induction s with
  | nil => intro h; simp [bpartition] at h
  | cons c rest ih =>
    intro h
    by_cases hc : c = sep
    · simp [bpartition, hc]
    · simp only [bpartition, if_neg hc] at h ⊢
      exact congrArg (c :: ·) (ih h)

theorem bpartition_not_found (sep : Nat) : ∀ s : Bytes, (bpartition sep s).2.1 = false →
    (bpartition sep s).1 = s ∧ (bpartition sep s).2.2 = [] := by
  intro s
  induction s with
  | nil => intro _; simp [bpartition]
  | cons c rest ih =>
    intro h
    by_cases hc : c = sep
    · simp [bpartition, hc] at h
    · simp only [bpartition, if_neg hc] at h ⊢
      exact ⟨congrArg (c :: ·) (ih h).1, (ih h).2⟩

theorem bpartition_before_no_sep (sep : Nat) : ∀ s : Bytes, sep ∉ (bpartition sep s).1 := by
  intro s
  induction s with
  | nil => simp [bpartition]
  | cons c rest ih =>
    by_cases hc : c = sep
    · simp [bpartition, hc]
    · simp only [bpartition, if_neg hc, List.mem_cons]
      rintro (h | h)
      · exact hc h.symm
      · exact ih h

/-- C2: for every read buffer, including one holding fewer bytes than the configured
search depth, prompt detection runs without error (the backwards seek clamps at the
buffer start, so the totality of processReadBuf models the absence of a failure
path) and examines only the window of the last depth bytes of the buffer: what
_process_read_buf returns is contained in that window, and when the buffer is
shorter than the depth the window is the whole buffer. -/
theorem process_read_buf_window (depth : Nat) (buf : Bytes) :
    (∃ pre post, pre ++ processReadBuf depth buf ++ post =
      buf.drop (buf.length - depth)) ∧
    (buf.length ≤ depth → buf.drop (buf.length - depth) = buf) := by
  constructor
  · unfold processReadBuf
    rw [bytesSeekEnd_neg]
    set s := buf.drop (buf.length - depth) with hs
    by_cases hf : (bpartition 10 s).2.1 = true
    · have hdec := bpartition_found 10 s hf
      by_cases ha : (bpartition 10 s).2.2 = []
      · rw [if_pos ha]
        exact ⟨[], 10 :: (bpartition 10 s).2.2, by simpa using hdec.symm⟩
      · rw [if_neg ha]
        exact ⟨(bpartition 10 s).1 ++ [10], [], by simpa using hdec.symm⟩
    · have hnf := bpartition_not_found 10 s (by simpa using hf)
      rw [if_pos hnf.2]
      exact ⟨[], [], by simp [hnf.1]⟩
  · intro h
    have : buf.length - depth = 0 := by omega
    simp [this]

/-- Witness for process_read_buf_window at a buffer shorter than the depth. -/
theorem process_read_buf_window_witness :
    ([97, 98, 99] : Bytes).length ≤ 1000 ∧
    List.drop (([97, 98, 99] : Bytes).length - 1000) [97, 98, 99] = [97, 98, 99] :=
  ⟨by decide, (process_read_buf_window 1000 [97, 98, 99]).2 (by decide)⟩

/-- C3 counterexample: with search depth 2 on the buffer abc newline def, the
returned window is the trailing ef, which is neither empty nor positioned
immediately after any newline of the original buffer — it starts mid-line. -/
theorem process_read_buf_midline_cx :
    processReadBuf 2 c3buf = [101, 102] ∧
    ¬ (processReadBuf 2 c3buf = [] ∨
       ∃ pre post, c3buf = pre ++ (10 :: processReadBuf 2 c3buf) ++ post) := by
  refine ⟨by decide, ?_⟩
  rintro (h | ⟨pre, post, h⟩)
  · exact absurd h (by decide)
  · rw [show processReadBuf 2 c3buf = [101, 102] from by decide] at h
    have hc : containsB c3buf [10, 101, 102] = true :=
      (containsB_iff _ _).mpr ⟨pre, post, by simpa using h⟩
    exact absurd hc (by decide)

/-- C3 amended: the window _process_read_buf returns either starts immediately after
a newline of the original buffer (and extends to its end), or contains no newline at
all; when the depth-bounded window holds no newline, or ends exactly at one, the
returned window can begin mid-line, though it is then newline-free. -/
theorem process_read_buf_after_newline_or_free (depth : Nat) (buf : Bytes) :
    (∃ pre, buf = pre ++ 10 :: processReadBuf depth buf) ∨
    10 ∉ processReadBuf depth buf := by
  unfold processReadBuf
  rw [bytesSeekEnd_neg]
  set s := buf.drop (buf.length - depth) with hs
  have hsplit : buf = buf.take (buf.length - depth) ++ s := (List.take_append_drop _ _).symm
  by_cases hf : (bpartition 10 s).2.1 = true
  · have hdec := bpartition_found 10 s hf
    by_cases ha : (bpartition 10 s).2.2 = []
    · rw [if_pos ha]
      exact Or.inr (bpartition_before_no_sep 10 s)
    · rw [if_neg ha]
      refine Or.inl ⟨buf.take (buf.length - depth) ++ (bpartition 10 s).1, ?_⟩
      calc buf = buf.take (buf.length - depth) ++ s := hsplit
        _ = buf.take (buf.length - depth) ++
            ((bpartition 10 s).1 ++ 10 :: (bpartition 10 s).2.2) := by rw [← hdec]
        _ = (buf.take (buf.length - depth) ++ (bpartition 10 s).1) ++
            10 :: (bpartition 10 s).2.2 := by rw [List.append_assoc]
  · have hnf := bpartition_not_found 10 s (by simpa using hf)
    rw [if_pos hnf.2, hnf.1]
    exact Or.inr (by
      intro hmem
      have := bpartition_before_no_sep 10 s
      rw [hnf.1] at this
      exact this hmem)

theorem matchEnd_ansi_nil : matchEnd ansiEscapeRE [] = none := by decide

theorem matchEnd_ansi_not_lead {c : Nat} (rest : Bytes) (h : isAnsiLead c = false) :
    matchEnd ansiEscapeRE (c :: rest) = none := by
  have hcls : cands (RE.cls isAnsiLead) (c :: rest) = [] := by
    simp [cands, h]
  show (cands (RE.seq (RE.cls isAnsiLead) _) (c :: rest)).head? = none
  rw [show cands (RE.seq (RE.cls isAnsiLead)
      (RE.seq (RE.star (RE.cls isAnsiMod)) (RE.alt ansiAlt1 ansiAlt2))) (c :: rest) =
      (cands (RE.cls isAnsiLead) (c :: rest)).flatMap
        (fun t => cands (RE.seq (RE.star (RE.cls isAnsiMod)) (RE.alt ansiAlt1 ansiAlt2)) t)
    from rfl, hcls]
  rfl

theorem reSub_ansi_no_match_id : ∀ s : Bytes, noAnsiMatchB s = true → stripAnsi s = s := by
  intro s
  induction s with
  | nil => intro _; rfl
  | cons c rest ih =>
    intro h
    simp only [noAnsiMatchB, Bool.and_eq_true, Option.isNone_iff_eq_none] at h
    show reSubFuel ansiEscapeRE (rest.length + 1) (c :: rest) = c :: rest
    rw [show reSubFuel ansiEscapeRE (rest.length + 1) (c :: rest) =
        (match matchEnd ansiEscapeRE (c :: rest) with
         | some t => if t.length < rest.length + 1 then reSubFuel ansiEscapeRE rest.length t
             else c :: reSubFuel ansiEscapeRE rest.length rest
         | none => c :: reSubFuel ansiEscapeRE rest.length rest) from rfl, h.1]
    exact congrArg (c :: ·) (ih h.2)

theorem noAnsiMatchB_of_no_lead : ∀ s : Bytes, s.all (fun c => !isAnsiLead c) = true →
    noAnsiMatchB s = true := by
  intro s
  induction s with
  | nil => intro _; simp [noAnsiMatchB, matchEnd_ansi_nil]
  | cons c rest ih =>
    intro h
    simp only [List.all_cons, Bool.and_eq_true, Bool.not_eq_true'] at h
    simp only [noAnsiMatchB, Bool.and_eq_true, Option.isNone_iff_eq_none]
    exact ⟨matchEnd_ansi_not_lead rest h.1, ih h.2⟩

/-- C4 counterexample: the four bytes ESC ESC m m. One pass removes the match
ESC m starting at the second byte, which juxtaposes the leading unmatched ESC with
the trailing m and creates a fresh match, so the second pass strips further. -/
theorem strip_ansi_not_idempotent_cx :
    stripAnsi [27, 27, 109, 109] = [27, 109] ∧
    stripAnsi (stripAnsi [27, 27, 109, 109]) = [] ∧
    stripAnsi (stripAnsi [27, 27, 109, 109]) ≠ stripAnsi [27, 27, 109, 109] := by decide

/-- C4 amended: ANSI stripping is not idempotent in general, because removing a match
can place a previously unmatched ESC or CSI lead byte directly before a terminator
byte and so create a new match; it is idempotent on every input whose once-stripped
result contains no lead byte, since without a lead byte no match can start anywhere
and the second pass removes nothing. -/
theorem strip_ansi_idempotent_of_no_lead (x : Bytes)
    (h : (stripAnsi x).all (fun c => !isAnsiLead c) = true) :
    stripAnsi (stripAnsi x) = stripAnsi x :=
  reSub_ansi_no_match_id (stripAnsi x) (noAnsiMatchB_of_no_lead (stripAnsi x) h)

/-- Witness for strip_ansi_idempotent_of_no_lead at a red-colored hi. -/
theorem strip_ansi_idempotent_witness :
    (stripAnsi [27, 91, 51, 49, 109, 104, 105, 27, 91, 48, 109]).all
      (fun c => !isAnsiLead c) = true ∧
    stripAnsi (stripAnsi [27, 91, 51, 49, 109, 104, 105, 27, 91, 48, 109]) =
      stripAnsi [27, 91, 51, 49, 109, 104, 105, 27, 91, 48, 109] :=
  ⟨by decide, strip_ansi_idempotent_of_no_lead _ (by decide)⟩

/-- C10: with comms_ansi enabled, every chunk _read_chunk returns is the raw
transport bytes with their ANSI-stripped copy concatenated after them; the raw chunk
is a prefix of what is appended to the accumulated output, so stripping never
removes bytes from a returned chunk, and a chunk in which the escape pattern matches
nowhere is appended twice over. -/
theorem read_chunk_ansi_duplicates (raw : Bytes) :
    chunkVal true raw = raw ++ stripAnsi raw ∧
    (∃ t, chunkVal true raw = raw ++ t) ∧
    (noAnsiMatchB raw = true → chunkVal true raw = raw ++ raw) := by
  refine ⟨rfl, ⟨stripAnsi raw, rfl⟩, fun h => ?_⟩
  show raw ++ stripAnsi raw = raw ++ raw
  rw [reSub_ansi_no_match_id raw h]

/-- Witness for read_chunk_ansi_duplicates at the escape-free chunk hello. -/
theorem read_chunk_ansi_duplicates_witness :
    noAnsiMatchB [104, 101, 108, 108, 111] = true ∧
    chunkVal true [104, 101, 108, 108, 111] =
      [104, 101, 108, 108, 111] ++ [104, 101, 108, 108, 111] :=
  ⟨by decide, (read_chunk_ansi_duplicates [104, 101, 108, 108, 111]).2.2 (by decide)⟩

/-- C5 counterexample: an output containing both the no-route and permission-denied
substrings, but also the higher-priority host-key trigger; the classifier reports
the host-key message, so the claim quantified over every output with the two
substrings fails as stated. -/
theorem ssh_message_priority_cx :
    containsB (lowerBytes c5out) (bytesOfStr "no route to host") = true ∧
    containsB (lowerBytes c5out) (bytesOfStr "permission denied") = true ∧
    sshMessageHandler c5out = some "Host key verification failed" ∧
    sshMessageHandler c5out ≠ some "No route to host" := by decide

/-- C5 amended: for every output containing both the no-route and permission-denied
substrings and matching none of the strictly earlier rules (host key verification
failed, operation timed out, connection timed out), the raised failure carries the
message No route to host, not the permission-denied message: the first matching rule
in the fixed order wins. -/
theorem ssh_message_priority (out : Bytes)
    (h1 : containsB (lowerBytes out) (bytesOfStr "host key verification failed") = false)
    (h2 : containsB (lowerBytes out) (bytesOfStr "operation timed out") = false)
    (h3 : containsB (lowerBytes out) (bytesOfStr "connection timed out") = false)
    (h4 : containsB (lowerBytes out) (bytesOfStr "no route to host") = true)
    (h5 : containsB (lowerBytes out) (bytesOfStr "permission denied") = true) :
    sshMessageHandler out = some "No route to host" := by
  unfold sshMessageHandler
  simp only [h1, h2, h3, h4, h5]
  simp

/-- Witness for ssh_message_priority at a concrete output with both substrings. -/
theorem ssh_message_priority_witness :
    containsB (lowerBytes (bytesOfStr "no route to host. permission denied"))
      (bytesOfStr "host key verification failed") = false ∧
    sshMessageHandler (bytesOfStr "no route to host. permission denied") =
      some "No route to host" :=
  ⟨by decide,
   ssh_message_priority (bytesOfStr "no route to host. permission denied")
     (by decide) (by decide) (by decide) (by decide) (by decide)⟩

/-- C6: the permission-denied rule sets the message to Python str of the bytes
object, which is its repr: the raw text wrapped in a b quote prefix and a closing
quote, not the verbatim text the documentation promises. At the concrete output of
the scenario the message is the b-quoted repr and differs from the raw text. -/
theorem ssh_message_permission_denied_repr :
    sshMessageHandler permDeniedOut =
      some ("b" ++ (⟨[Char.ofNat 39]⟩ : String) ++ "Permission denied, please try again." ++
        (⟨[Char.ofNat 39]⟩ : String)) ∧
    sshMessageHandler permDeniedOut ≠ some (strOfBytes permDeniedOut) ∧
    strOfBytes permDeniedOut = "Permission denied, please try again." := by decide

theorem reUnescape_reEscape : ∀ p : Bytes, reUnescape (reEscape p) = p := by
  intro p
  induction p with
  | nil => rfl
  | cons c rest ih =>
    have hstep : reEscape (c :: rest) =
        (if reEscapeSpecial c then [0x5C, c] else [c]) ++ reEscape rest := by
      simp [reEscape]
    rw [hstep]
    by_cases hc : reEscapeSpecial c = true
    · rw [if_pos hc]
      show reUnescape (0x5C :: c :: reEscape rest) = c :: rest
      rw [show reUnescape (0x5C :: c :: reEscape rest) = c :: reUnescape (reEscape rest) from by
        rw [reUnescape.eq_def]
        simp, ih]
    · rw [if_neg hc]
      have hne : c ≠ 0x5C := by
        intro h
        rw [h] at hc
        exact hc (by decide)
      show reUnescape (c :: reEscape rest) = c :: rest
      rw [show reUnescape (c :: reEscape rest) = c :: reUnescape (reEscape rest) from by
        rw [reUnescape.eq_def]
        simp [hne], ih]
/-- C7 counterexample: the non-anchored override confirm-question-mark is compiled
through re.escape with no flags at all, so the resulting matcher is case-sensitive:
it fails on a window that contains the literal only in upper case, although that
window contains the literal case-insensitively, refuting the claimed
case-insensitive matching. -/
theorem prompt_pattern_override_cx :
    (getPromptPattern defaultPromptB (some confirmPat)).escapedLit = true ∧
    (getPromptPattern defaultPromptB (some confirmPat)).ignoreCase = false ∧
    containsB (lowerBytes (bytesOfStr "please CONFIRM? now")) (lowerBytes confirmPat) = true ∧
    litSearch (getPromptPattern defaultPromptB (some confirmPat))
      (bytesOfStr "please CONFIRM? now") = false := by decide

/-- C7 amended: every override pattern that does not both begin with the caret and
end with the dollar byte is compiled as a re.escape literal with no flags: the
resulting matcher is unanchored and matches exactly the windows that contain the
override verbatim, case-sensitively (the IGNORECASE and MULTILINE flags of the other
branches are not applied). -/
theorem prompt_pattern_override_literal (classPattern p hay : Bytes) (hne : p ≠ [])
    (hanch : ¬ (p.head? = some 0x5E ∧ p.getLast? = some 0x24)) :
    (getPromptPattern classPattern (some p)).escapedLit = true ∧
    (getPromptPattern classPattern (some p)).ignoreCase = false ∧
    (getPromptPattern classPattern (some p)).multiline = false ∧
    (litSearch (getPromptPattern classPattern (some p)) hay = true ↔
      ∃ pre post, hay = pre ++ p ++ post) := by
  have hpp : getPromptPattern classPattern (some p) = ⟨reEscape p, true, false, false⟩ := by
    simp only [getPromptPattern]
    rw [if_neg hne, if_neg hanch]
  rw [hpp]
  refine ⟨rfl, rfl, rfl, ?_⟩
  show containsB hay (reUnescape (reEscape p)) = true ↔ _
  rw [reUnescape_reEscape]
  exact containsB_iff hay p

/-- Witness for prompt_pattern_override_literal: the confirm override matches its
verbatim occurrence inside a larger window. -/
theorem prompt_pattern_override_literal_witness :
    confirmPat ≠ [] ∧
    (litSearch (getPromptPattern defaultPromptB (some confirmPat))
        (bytesOfStr "please confirm? now") = true ↔
      ∃ pre post, bytesOfStr "please confirm? now" = pre ++ confirmPat ++ post) :=
  ⟨by decide,
   (prompt_pattern_override_literal defaultPromptB confirmPat
     (bytesOfStr "please confirm? now") (by decide) (by decide)).2.2.2⟩


theorem fillDefaults_telnet (a : BaseChannelArgs) :
    (fillDefaults a).auth_telnet_login_pattern =
      (if a.auth_telnet_login_pattern = "" then "^(.*username:)|(.*login:)\\s?$"
       else a.auth_telnet_login_pattern) := by
  unfold fillDefaults
  by_cases h1 : a.auth_telnet_login_pattern = "" <;>
  by_cases h2 : a.auth_password_pattern = "" <;>
  by_cases h3 : a.auth_passphrase_pattern = "" <;>
  simp [h1, h2, h3]

theorem fillDefaults_password (a : BaseChannelArgs) :
    (fillDefaults a).auth_password_pattern =
      (if a.auth_password_pattern = "" then "(.*@.*)?password:\\s?$"
       else a.auth_password_pattern) := by
  unfold fillDefaults
  by_cases h1 : a.auth_telnet_login_pattern = "" <;>
  by_cases h2 : a.auth_password_pattern = "" <;>
  by_cases h3 : a.auth_passphrase_pattern = "" <;>
  simp [h1, h2, h3]

theorem fillDefaults_passphrase (a : BaseChannelArgs) :
    (fillDefaults a).auth_passphrase_pattern =
      (if a.auth_passphrase_pattern = "" then "enter passphrase for key"
       else a.auth_passphrase_pattern) := by
  unfold fillDefaults
  by_cases h1 : a.auth_telnet_login_pattern = "" <;>
  by_cases h2 : a.auth_password_pattern = "" <;>
  by_cases h3 : a.auth_passphrase_pattern = "" <;>
  simp [h1, h2, h3]

theorem fillDefaults_prompt (a : BaseChannelArgs) :
    (fillDefaults a).comms_prompt_pattern = a.comms_prompt_pattern := by
  unfold fillDefaults
  by_cases h1 : a.auth_telnet_login_pattern = "" <;>
  by_cases h2 : a.auth_password_pattern = "" <;>
  by_cases h3 : a.auth_passphrase_pattern = "" <;>
  simp [h1, h2, h3]

/-- C9 counterexample: constructing BaseChannelArgs with an empty
comms_prompt_pattern keeps the empty string: __post_init__ only restores defaults
for the three auth patterns, so this pattern configuration field does not fall back
to its documented default and would later compile an empty regex. -/
theorem post_init_empty_prompt_cx :
    postInit { comms_prompt_pattern := "" } =
      Except.ok { comms_prompt_pattern := "", channel_log_mode := "w" } ∧
    (({ comms_prompt_pattern := "", channel_log_mode := "w" } :
        BaseChannelArgs).comms_prompt_pattern = "") ∧
    ("" : String) ≠ "^[a-z0-9.\\-@()/:]\x7b1,32\x7d[#>$]$" := by
  refine ⟨rfl, by decide, by decide⟩

/-- C9 amended: of the pattern configuration fields, exactly the three
authentication patterns (telnet login, password, passphrase) fall back to their
documented defaults when supplied empty, and are nonempty in every successfully
constructed configuration; comms_prompt_pattern is passed through unchanged, so an
empty value supplied there is kept. -/
theorem post_init_empty_fallback (a b : BaseChannelArgs) (h : postInit a = Except.ok b) :
    (a.auth_telnet_login_pattern = "" →
      b.auth_telnet_login_pattern = "^(.*username:)|(.*login:)\\s?$") ∧
    (a.auth_password_pattern = "" → b.auth_password_pattern = "(.*@.*)?password:\\s?$") ∧
    (a.auth_passphrase_pattern = "" → b.auth_passphrase_pattern = "enter passphrase for key") ∧
    b.auth_telnet_login_pattern ≠ "" ∧
    b.auth_password_pattern ≠ "" ∧
    b.auth_passphrase_pattern ≠ "" ∧
    b.comms_prompt_pattern = a.comms_prompt_pattern := by
  have hb : b.auth_telnet_login_pattern = (fillDefaults a).auth_telnet_login_pattern ∧
      b.auth_password_pattern = (fillDefaults a).auth_password_pattern ∧
      b.auth_passphrase_pattern = (fillDefaults a).auth_passphrase_pattern ∧
      b.comms_prompt_pattern = (fillDefaults a).comms_prompt_pattern := by
    unfold postInit at h
    dsimp only at h
    split at h
    · simp at h
    · split at h <;> (injection h with h; subst h; exact ⟨rfl, rfl, rfl, rfl⟩)
  obtain ⟨ht, hp, hph, hcp⟩ := hb
  rw [ht, hp, hph, hcp, fillDefaults_telnet, fillDefaults_password,
    fillDefaults_passphrase, fillDefaults_prompt]
  refine ⟨fun h1 => by rw [if_pos h1], fun h2 => by rw [if_pos h2],
    fun h3 => by rw [if_pos h3], ?_, ?_, ?_, rfl⟩
  · split
    · decide
    · assumption
  · split
    · decide
    · assumption
  · split
    · decide
    · assumption

/-- Witness for post_init_empty_fallback at a configuration with all three auth
patterns empty. -/
theorem post_init_empty_fallback_witness :
    postInit { auth_telnet_login_pattern := "", auth_password_pattern := "",
               auth_passphrase_pattern := "" } =
      Except.ok { channel_log_mode := "w" } ∧
    (({ auth_telnet_login_pattern := "", auth_password_pattern := "",
        auth_passphrase_pattern := "" } : BaseChannelArgs).auth_telnet_login_pattern = "" →
      ({ channel_log_mode := "w" } : BaseChannelArgs).auth_telnet_login_pattern =
        "^(.*username:)|(.*login:)\\s?$") :=
  ⟨rfl,
   (post_init_empty_fallback
     { auth_telnet_login_pattern := "", auth_password_pattern := "",
       auth_passphrase_pattern := "" }
     { channel_log_mode := "w" } rfl).1⟩

theorem tRead_lock (st : TransportState) :
    (tRead st).2.lockHeld = st.lockHeld ∧ (tRead st).2.acquireCount = st.acquireCount ∧
    (tRead st).2.releaseCount = st.releaseCount := by
  cases hf : st.feed <;> simp [tRead, hf]

theorem readUntilInput_lock (ansi : Bool) (input : Bytes) :
    ∀ (fuel : Nat) (acc : Bytes) (st : TransportState),
    (readUntilInput ansi input fuel acc st).2.lockHeld = st.lockHeld ∧
    (readUntilInput ansi input fuel acc st).2.acquireCount = st.acquireCount ∧
    (readUntilInput ansi input fuel acc st).2.releaseCount = st.releaseCount := by
  intro fuel
  induction fuel with
  | zero =>
    intro acc st
    by_cases h : containsB acc input = true <;> simp [readUntilInput, h]
  | succ n ih =>
    intro acc st
    by_cases h : containsB acc input = true
    · simp [readUntilInput, h]
    · rw [show readUntilInput ansi input (n + 1) acc st =
        readUntilInput ansi input n (acc ++ (readChunk ansi st).1) (readChunk ansi st).2 from by
          simp [readUntilInput, h]]
      have ih' := ih (acc ++ (readChunk ansi st).1) (readChunk ansi st).2
      have ht := tRead_lock st
      exact ⟨by rw [ih'.1]; exact ht.1, by rw [ih'.2.1]; exact ht.2.1,
        by rw [ih'.2.2]; exact ht.2.2⟩

theorem readUntilPromptLoop_lock (ansi : Bool) (matchP : Bytes → Bool) :
    ∀ (fuel : Nat) (acc : Bytes) (st : TransportState),
    (readUntilPromptLoop ansi matchP fuel acc st).2.lockHeld = st.lockHeld ∧
    (readUntilPromptLoop ansi matchP fuel acc st).2.acquireCount = st.acquireCount ∧
    (readUntilPromptLoop ansi matchP fuel acc st).2.releaseCount = st.releaseCount := by
  intro fuel
  induction fuel with
  | zero => intro acc st; simp [readUntilPromptLoop]
  | succ n ih =>
    intro acc st
    have ht := tRead_lock st
    by_cases h : matchP (acc ++ (readChunk ansi st).1) = true
    · simp only [readUntilPromptLoop, h, if_true]
      exact ⟨by simp [tSetBlocking]; exact ht.1, by simp [tSetBlocking]; exact ht.2.1,
        by simp [tSetBlocking]; exact ht.2.2⟩
    · rw [show readUntilPromptLoop ansi matchP (n + 1) acc st =
        readUntilPromptLoop ansi matchP n (acc ++ (readChunk ansi st).1) (readChunk ansi st).2
        from by simp [readUntilPromptLoop, h]]
      have ih' := ih (acc ++ (readChunk ansi st).1) (readChunk ansi st).2
      exact ⟨by rw [ih'.1]; exact ht.1, by rw [ih'.2.1]; exact ht.2.1,
        by rw [ih'.2.2]; exact ht.2.2⟩

theorem readUntilPrompt_lock (ansi : Bool) (matchP : Bytes → Bool) (fuel : Nat) (acc : Bytes)
    (st : TransportState) :
    (readUntilPrompt ansi matchP fuel acc st).2.lockHeld = st.lockHeld ∧
    (readUntilPrompt ansi matchP fuel acc st).2.acquireCount = st.acquireCount ∧
    (readUntilPrompt ansi matchP fuel acc st).2.releaseCount = st.releaseCount := by
  unfold readUntilPrompt
  have h := readUntilPromptLoop_lock ansi matchP fuel acc (tSetBlocking false st)
  exact ⟨by rw [h.1]; simp [tSetBlocking], by rw [h.2.1]; simp [tSetBlocking],
    by rw [h.2.2]; simp [tSetBlocking]⟩


/-- C1: for every single-command and every interactive operation, the channel lock
acquire and release are paired one to one on every exit path: whether the operation
completes or exhausts its time budget inside the echo or prompt read loops (the
modelled OperationTimeout path), the final state holds exactly one more acquire and
one more release than the initial state and the lock ends free, so a subsequent
operation on the same Channel can acquire it. -/
theorem channel_lock_paired (ansi : Bool) (matchP expectP finaleP : Bytes → Bool)
    (promptSub : Bytes → Bytes) (returnChar : Bytes) (fuel : Nat)
    (input response : Bytes) (hidden stripPrompt : Bool) (st : TransportState) :
    ((sendInput ansi matchP promptSub returnChar fuel input stripPrompt st).2.lockHeld = false ∧
     (sendInput ansi matchP promptSub returnChar fuel input stripPrompt st).2.acquireCount =
       st.acquireCount + 1 ∧
     (sendInput ansi matchP promptSub returnChar fuel input stripPrompt st).2.releaseCount =
       st.releaseCount + 1) ∧
    ((sendInputInteract ansi expectP finaleP promptSub returnChar fuel input response hidden
        st).2.lockHeld = false ∧
     (sendInputInteract ansi expectP finaleP promptSub returnChar fuel input response hidden
        st).2.acquireCount = st.acquireCount + 1 ∧
     (sendInputInteract ansi expectP finaleP promptSub returnChar fuel input response hidden
        st).2.releaseCount = st.releaseCount + 1) := by
  constructor
  · unfold sendInput
    dsimp only
    split
    · rename_i st1 heq
      have hp := readUntilInput_lock ansi input fuel [] (tWrite input (tFlush (lockAcquire st)))
      rw [heq] at hp
      dsimp only at hp
      refine ⟨?_, ?_, ?_⟩ <;>
        simp [opTimeout, lockRelease, tWrite, tFlush, lockAcquire, hp.2.1, hp.2.2]
    · rename_i acc st1 heq
      have hp := readUntilInput_lock ansi input fuel [] (tWrite input (tFlush (lockAcquire st)))
      rw [heq] at hp
      dsimp only at hp
      split
      · rename_i st2 heq2
        have hq := readUntilPrompt_lock ansi matchP fuel [] (sendReturn returnChar st1)
        rw [heq2] at hq
        dsimp only at hq
        refine ⟨?_, ?_, ?_⟩ <;>
          simp [opTimeout, lockRelease, sendReturn, tWrite, tFlush, lockAcquire,
            hq.2.1, hq.2.2, hp.2.1, hp.2.2]
      · rename_i out st2 heq2
        have hq := readUntilPrompt_lock ansi matchP fuel [] (sendReturn returnChar st1)
        rw [heq2] at hq
        dsimp only at hq
        refine ⟨?_, ?_, ?_⟩ <;>
          simp [lockRelease, sendReturn, tWrite, tFlush, lockAcquire,
            hq.2.1, hq.2.2, hp.2.1, hp.2.2]
  · unfold sendInputInteract
    dsimp only
    split
    · rename_i st1 heq
      have hp := readUntilInput_lock ansi input fuel [] (tWrite input (tFlush (lockAcquire st)))
      rw [heq] at hp
      dsimp only at hp
      refine ⟨?_, ?_, ?_⟩ <;>
        simp [opTimeout, lockRelease, tWrite, tFlush, lockAcquire, hp.2.1, hp.2.2]
    · rename_i acc st1 heq
      have hp := readUntilInput_lock ansi input fuel [] (tWrite input (tFlush (lockAcquire st)))
      rw [heq] at hp
      dsimp only at hp
      split
      · rename_i st2 heq2
        have hq := readUntilPrompt_lock ansi expectP fuel [] (sendReturn returnChar st1)
        rw [heq2] at hq
        dsimp only at hq
        refine ⟨?_, ?_, ?_⟩ <;>
          simp [opTimeout, lockRelease, sendReturn, tWrite, tFlush, lockAcquire,
            hq.2.1, hq.2.2, hp.2.1, hp.2.2]
      · rename_i out1 st2 heq2
        have hq := readUntilPrompt_lock ansi expectP fuel [] (sendReturn returnChar st1)
        rw [heq2] at hq
        dsimp only at hq
        split
        · rename_i st3 heq3
          have hr := readUntilPrompt_lock ansi finaleP fuel []
            (sendReturn returnChar (tWrite response st2))
          rw [heq3] at hr
          dsimp only at hr
          refine ⟨?_, ?_, ?_⟩ <;>
            simp [opTimeout, lockRelease, sendReturn, tWrite, tFlush, lockAcquire,
              hr.2.1, hr.2.2, hq.2.1, hq.2.2, hp.2.1, hp.2.2]
        · rename_i out2 st3 heq3
          have hr := readUntilPrompt_lock ansi finaleP fuel []
            (sendReturn returnChar (tWrite response st2))
          rw [heq3] at hr
          dsimp only at hr
          refine ⟨?_, ?_, ?_⟩ <;>
            simp [lockRelease, sendReturn, tWrite, tFlush, lockAcquire,
              hr.2.1, hr.2.2, hq.2.1, hq.2.2, hp.2.1, hp.2.2]

theorem tRead_events (st : TransportState) :
    ∃ b, (tRead st).2.events = st.events ++ [Event.eRead b] := by
  cases hf : st.feed with
  | nil => exact ⟨[], by simp [tRead, hf]⟩
  | cons c rest => exact ⟨c, by simp [tRead, hf]⟩

theorem readUntilInput_events (ansi : Bool) (input : Bytes) :
    ∀ (fuel : Nat) (acc : Bytes) (st : TransportState),
    ∃ r, (readUntilInput ansi input fuel acc st).2.events = st.events ++ r ∧
      ∀ e ∈ r, ∃ b, e = Event.eRead b := by
  intro fuel
  induction fuel with
  | zero =>
    intro acc st
    refine ⟨[], ?_, by simp⟩
    by_cases h : containsB acc input = true <;> simp [readUntilInput, h]
  | succ n ih =>
    intro acc st
    by_cases h : containsB acc input = true
    · exact ⟨[], by simp [readUntilInput, h], by simp⟩
    · rw [show readUntilInput ansi input (n + 1) acc st =
        readUntilInput ansi input n (acc ++ (readChunk ansi st).1) (readChunk ansi st).2 from by
          simp [readUntilInput, h]]
      obtain ⟨r, hr, hread⟩ := ih (acc ++ (readChunk ansi st).1) (readChunk ansi st).2
      obtain ⟨b, hb⟩ := tRead_events st
      refine ⟨Event.eRead b :: r, ?_, ?_⟩
      · rw [hr]
        show (tRead st).2.events ++ r = _
        rw [hb]
        simp
      · intro e he
        rcases List.mem_cons.mp he with rfl | he'
        · exact ⟨b, rfl⟩
        · exact hread e he'

theorem readUntilPromptLoop_events_some (ansi : Bool) (matchP : Bytes → Bool) :
    ∀ (fuel : Nat) (acc : Bytes) (st : TransportState) (out : Bytes) (st' : TransportState),
    readUntilPromptLoop ansi matchP fuel acc st = (some out, st') →
    ∃ r, st'.events = st.events ++ r ++ [Event.eSetBlocking true] ∧
      ∀ e ∈ r, ∃ b, e = Event.eRead b := by
  intro fuel
  induction fuel with
  | zero =>
    intro acc st out st' h
    exact absurd (congrArg Prod.fst h) (by simp [readUntilPromptLoop])
  | succ n ih =>
    intro acc st out st' h
    by_cases hm : matchP (acc ++ (readChunk ansi st).1) = true
    · rw [show readUntilPromptLoop ansi matchP (n + 1) acc st =
        (some (acc ++ (readChunk ansi st).1), tSetBlocking true (readChunk ansi st).2) from by
          simp [readUntilPromptLoop, hm]] at h
      obtain ⟨b, hb⟩ := tRead_events st
      have hst : st' = tSetBlocking true (readChunk ansi st).2 := (Prod.ext_iff.mp h).2.symm
      refine ⟨[Event.eRead b], ?_, by simp⟩
      rw [hst]
      show ((tRead st).2.events ++ [Event.eSetBlocking true]) = _
      rw [hb]
    · rw [show readUntilPromptLoop ansi matchP (n + 1) acc st =
        readUntilPromptLoop ansi matchP n (acc ++ (readChunk ansi st).1) (readChunk ansi st).2
        from by simp [readUntilPromptLoop, hm]] at h
      obtain ⟨r, hr, hread⟩ := ih (acc ++ (readChunk ansi st).1) (readChunk ansi st).2 out st' h
      obtain ⟨b, hb⟩ := tRead_events st
      refine ⟨Event.eRead b :: r, ?_, ?_⟩
      · rw [hr]
        show (tRead st).2.events ++ r ++ _ = _
        rw [hb]
        simp
      · intro e he
        rcases List.mem_cons.mp he with rfl | he'
        · exact ⟨b, rfl⟩
        · exact hread e he'

/-- C8 amended: the interactive operation supports exactly one caller-supplied
stage. For that single stage the protocol is strictly sequential: on every
successful run the transport trace is the lock acquire, flush, the stage input
write, the echo reads, the return write, the non-blocking expectation read phase,
the response write, the return write, the non-blocking finale read phase, and the
lock release, in exactly this order — the finale is waited for only after the stage
completes. A list of two or more stage tuples is not executed stage by stage:
send_inputs_interact wraps the whole list as one stage, its unpacking into the four
stage fields fails (or, for a list of exactly four tuples, the tuple fields are not
strings), and the call errors before any stage input is written. -/
theorem send_inputs_interact_single_stage :
    (∀ (ansi : Bool) (expectP finaleP : Bytes → Bool) (promptSub : Bytes → Bytes)
       (returnChar : Bytes) (fuel : Nat) (input response : Bytes) (hidden : Bool)
       (st : TransportState) (out : Bytes × Bytes) (st' : TransportState),
      sendInputInteract ansi expectP finaleP promptSub returnChar fuel input response hidden st =
        (Except.ok out, st') →
      ∃ r1 r2 r3,
        (∀ e ∈ r1, ∃ b, e = Event.eRead b) ∧ (∀ e ∈ r2, ∃ b, e = Event.eRead b) ∧
        (∀ e ∈ r3, ∃ b, e = Event.eRead b) ∧
        st'.events = st.events ++ [Event.eLockAcquire, Event.eFlush, Event.eWrite input] ++ r1 ++
          [Event.eFlush, Event.eWrite returnChar, Event.eSetBlocking false] ++ r2 ++
          [Event.eSetBlocking true, Event.eWrite response, Event.eFlush, Event.eWrite returnChar,
           Event.eSetBlocking false] ++ r3 ++ [Event.eSetBlocking true, Event.eLockRelease]) ∧
    (∀ l : List PyVal, 2 ≤ l.length → (∀ x ∈ l, ∃ a b c d, x = PyVal.ptuple [a, b, c, d]) →
      ∀ (ansi : Bool) (mkMatch : String → Bytes → Bool) (promptSub : Bytes → Bytes)
        (returnChar : Bytes) (fuel : Nat) (hidden : Bool) (st : TransportState),
        ∃ err, sendInputsInteract ansi mkMatch promptSub returnChar fuel (PyVal.plist l) hidden
          st = (Except.error err, st)) := by
  constructor
  · intro ansi expectP finaleP promptSub returnChar fuel input response hidden st out st' h
    unfold sendInputInteract at h
    dsimp only at h
    split at h
    · exact absurd (congrArg Prod.fst h) (by simp [opTimeout])
    · rename_i acc st1 heq1
      split at h
      · exact absurd (congrArg Prod.fst h) (by simp [opTimeout])
      · rename_i out1 st2 heq2
        split at h
        · exact absurd (congrArg Prod.fst h) (by simp [opTimeout])
        · rename_i out2 st3 heq3
          have hst' : st' = lockRelease st3 := (congrArg Prod.snd h).symm
          obtain ⟨r1, hr1, hread1⟩ :=
            readUntilInput_events ansi input fuel [] (tWrite input (tFlush (lockAcquire st)))
          rw [heq1] at hr1
          dsimp only at hr1
          unfold readUntilPrompt at heq2 heq3
          obtain ⟨r2, hr2, hread2⟩ := readUntilPromptLoop_events_some ansi expectP fuel []
            (tSetBlocking false (sendReturn returnChar st1)) out1 st2 heq2
          obtain ⟨r3, hr3, hread3⟩ := readUntilPromptLoop_events_some ansi finaleP fuel []
            (tSetBlocking false (sendReturn returnChar (tWrite response st2))) out2 st3 heq3
          refine ⟨r1, r2, r3, hread1, hread2, hread3, ?_⟩
          rw [hst']
          simp [lockRelease, tSetBlocking, sendReturn, tWrite, tFlush, lockAcquire,
            hr3, hr2, hr1]
  · intro l hlen hshape ansi mkMatch promptSub returnChar fuel hidden st
    rcases l with _ | ⟨x1, l1⟩
    · simp at hlen
    rcases l1 with _ | ⟨x2, l2⟩
    · simp at hlen
    rcases l2 with _ | ⟨x3, l3⟩
    · exact ⟨ChanErr.valueErr, rfl⟩
    rcases l3 with _ | ⟨x4, l4⟩
    · exact ⟨ChanErr.valueErr, rfl⟩
    rcases l4 with _ | ⟨x5, l5⟩
    · obtain ⟨a1, b1, c1, d1, hx1⟩ := hshape x1 (by simp)
      obtain ⟨a2, b2, c2, d2, hx2⟩ := hshape x2 (by simp)
      obtain ⟨a3, b3, c3, d3, hx3⟩ := hshape x3 (by simp)
      obtain ⟨a4, b4, c4, d4, hx4⟩ := hshape x4 (by simp)
      subst hx1 hx2 hx3 hx4
      exact ⟨ChanErr.attributeErr, rfl⟩
    · exact ⟨ChanErr.valueErr, rfl⟩

/-- C8 counterexample: calling the interactive entry point with a concrete list of
two interaction stages fails with the unpacking ValueError and leaves the transport
untouched — the input of neither stage is ever written, refuting the claim that every
stage of a caller-supplied sequence is executed in order. -/
theorem send_inputs_interact_two_stage_cx :
    sendInputsInteract false (fun _ _ => true) id [10] 5 twoStages false demoState =
      (Except.error ChanErr.valueErr, demoState) ∧
    demoState.events = [] := ⟨rfl, rfl⟩

/-- Witness for send_inputs_interact_single_stage: its trace-shape half applied to a
concrete successful single-stage run, and its failure half applied to a concrete
list of two stage tuples. -/
theorem send_inputs_interact_single_stage_witness :
    (∃ r1 r2 r3,
      (∀ e ∈ r1, ∃ b, e = Event.eRead b) ∧ (∀ e ∈ r2, ∃ b, e = Event.eRead b) ∧
      (∀ e ∈ r3, ∃ b, e = Event.eRead b) ∧
      (sendInputInteract false (fun _ => true) (fun _ => true) id [13] 3 [105] [114] false
        demoState).2.events =
        demoState.events ++ [Event.eLockAcquire, Event.eFlush, Event.eWrite [105]] ++ r1 ++
          [Event.eFlush, Event.eWrite [13], Event.eSetBlocking false] ++ r2 ++
          [Event.eSetBlocking true, Event.eWrite [114], Event.eFlush, Event.eWrite [13],
           Event.eSetBlocking false] ++ r3 ++ [Event.eSetBlocking true, Event.eLockRelease]) ∧
    (∃ err, sendInputsInteract false (fun _ _ => true) id [10] 5
        (PyVal.plist
          [PyVal.ptuple [PyVal.pstr "enable", PyVal.pstr "assword:",
                         PyVal.pstr "secret", PyVal.pstr "#"],
           PyVal.ptuple [PyVal.pstr "conf t", PyVal.pstr ")#",
                         PyVal.pstr "", PyVal.pstr "#"]]) false demoState =
      (Except.error err, demoState)) :=
  ⟨send_inputs_interact_single_stage.1 false (fun _ => true) (fun _ => true) id [13] 3
    [105] [114] false demoState ([35, 62], [35, 62])
    (sendInputInteract false (fun _ => true) (fun _ => true) id [13] 3 [105] [114] false
      demoState).2 rfl,
   send_inputs_interact_single_stage.2
    [PyVal.ptuple [PyVal.pstr "enable", PyVal.pstr "assword:",
                   PyVal.pstr "secret", PyVal.pstr "#"],
     PyVal.ptuple [PyVal.pstr "conf t", PyVal.pstr ")#",
                   PyVal.pstr "", PyVal.pstr "#"]]
    (by simp)
    (by
      intro x hx
      rcases List.mem_cons.mp hx with rfl | hx'
      · exact ⟨_, _, _, _, rfl⟩
      · rcases List.mem_cons.mp hx' with rfl | hx''
        · exact ⟨_, _, _, _, rfl⟩
        · simp at hx'')
    false (fun _ _ => true) id [10] 5 false demoState⟩

end Scrapli
